import Mathlib

/-!
Verification of the blend_converter library (src/lib.rs).

The Rust source is shallowly embedded: `std::path::Path` values become `RPath`
(an absolute flag plus a list of components), the operating system becomes an
explicit `Sys` record of oracles (process spawning, path canonicalization,
directory creation, the directory walk, and the `OUT_DIR` environment
variable), and every externally visible effect is recorded in a `World` trace
of `Event`s so that probe invocations and conversions can be counted and
ordered.  Fallible Rust code returning `Result`/`io::Result` becomes `Except`,
and the two `expect` calls in the source (which abort the process) are
modelled by dedicated `panicked` result constructors.
-/

deriving instance DecidableEq for Except

/-- Payload of a `std::io::Error`; the code never inspects it, so an opaque
numeric tag suffices. -/
abbrev IOErr := Nat

/-- Exit status of a child process, identified by its exit code, as in
`std::process::ExitStatus`. -/
structure ExitStatus where
  code : Int
deriving DecidableEq

/-- The `ExitStatus::success` test: exit code zero. -/
def ExitStatus.success (s : ExitStatus) : Bool := s.code == 0

/-- A file system path: `absolute` says whether it starts at the root, and
`components` are the normal (non-empty, non-separator) name components, in
order.  Mirrors the Unix behaviour of `std::path::Path`. -/
structure RPath where
  absolute : Bool
  components : List String
deriving DecidableEq

/-- The `Path::join` / `PathBuf::push` semantics on Unix: joining an absolute
path replaces the receiver entirely, joining a relative path appends its
components. -/
def RPath.join (p q : RPath) : RPath :=
  if q.absolute then q else ⟨p.absolute, p.components ++ q.components⟩

/-- The `Path::parent` semantics: `none` for the root or the empty path,
otherwise the path with its last component removed. -/
def RPath.parent (p : RPath) : Option RPath :=
  match p.components with
  | [] => none
  | _ :: _ => some ⟨p.absolute, p.components.dropLast⟩

/-- The `Path::file_name` semantics on normal components: the last component,
if any. -/
def RPath.fileName (p : RPath) : Option String := p.components.getLast?

/-- Index of the last occurrence of a character in a list, if any. -/
def lastIdxOf (c : Char) : List Char → Option Nat
  | [] => none
  | x :: xs =>
    match lastIdxOf c xs with
    | some i => some (i + 1)
    | none => if x == c then some 0 else none

/-- Splits a file name into (stem, extension) with the `std::path` rule: the
split is at the last dot, except that a dot at position zero (a leading-dot
file) does not count as a separator. -/
def fileStemExt (name : String) : String × Option String :=
  match name.data with
  | [] => ("", none)
  | c0 :: rest =>
    match lastIdxOf '.' rest with
    | some i => (⟨c0 :: rest.take i⟩, some ⟨rest.drop (i + 1)⟩)
    | none => (name, none)

/-- The `Path::file_stem` semantics. -/
def RPath.fileStem (p : RPath) : Option String :=
  p.fileName.map (fun n => (fileStemExt n).1)

/-- The `Path::extension` semantics. -/
def RPath.extension (p : RPath) : Option String :=
  p.fileName.bind (fun n => (fileStemExt n).2)

/-- Renders the path the way `Path::display` / `Debug` shows it: components
separated by slashes, with a leading slash when absolute. -/
def RPath.display (p : RPath) : String :=
  (if p.absolute then "/" else "") ++ String.intercalate "/" p.components

/-- Splits a character list at every slash, for `Path::new` on a string. -/
def splitSlashAux : List Char → List Char → List (List Char)
  | [], acc => [acc.reverse]
  | c :: cs, acc =>
    if c == '/' then acc.reverse :: splitSlashAux cs [] else splitSlashAux cs (c :: acc)

/-- The `Path::new` semantics on a Unix path string: absolute when it starts
with a slash, components are the non-empty slash-separated pieces. -/
def pathOfString (s : String) : RPath :=
  let abs : Bool := match s.data with | '/' :: _ => true | _ => false
  ⟨abs, ((splitSlashAux s.data []).map String.mk).filter (fun c => c ≠ "")⟩

/-- Escaping of one character under Rust's `Debug` formatting of strings and
paths (quotes and backslashes get a backslash; other printable characters are
unchanged, which is all the generated scripts rely on). -/
def escDebugChar (c : Char) : List Char :=
  if c == '\\' then ['\\', '\\'] else if c == '"' then ['\\', '"'] else [c]

/-- Body of Rust's `Debug` formatting of a string: each character escaped. -/
def escDebug (s : String) : String := ⟨(s.data.map escDebugChar).flatten⟩

/-- Rust's `Debug` formatting of a string or path: the escaped body wrapped in
double quotes, as produced by a `{...:?}` format directive. -/
def rustDebugStr (s : String) : String := "\"" ++ escDebug s ++ "\""

/-- Decides whether `pat` is a prefix of `l` (plain boolean recursion, kept
executable for concrete evaluation). -/
def pfxB : List Char → List Char → Bool
  | [], _ => true
  | _ :: _, [] => false
  | a :: as, b :: bs => a == b && pfxB as bs

/-- Decides whether `pat` occurs contiguously inside `l`. -/
def hasSub (pat : List Char) : List Char → Bool
  | [] => pat.isEmpty
  | c :: t => pfxB pat (c :: t) || hasSub pat t

/-- Decides whether a character occurs in a list. -/
def chMem (c : Char) : List Char → Bool
  | [] => false
  | a :: as => a == c || chMem c as

/-- Substring test on strings: does `pat` occur contiguously inside `s`? -/
def strSub (pat s : String) : Bool := hasSub pat.data s.data

/-- An argument passed to a child process: either a plain string or a path
(`Command::arg` accepts both). -/
inductive Arg where
  | str (s : String)
  | path (p : RPath)
deriving DecidableEq

/-- A child-process invocation under construction: the program to run plus its
argument list, as in `std::process::Command`. -/
structure Command where
  program : Arg
  args : List Arg
deriving DecidableEq

/-- The `Command::arg` builder: appends one argument. -/
def Command.arg (c : Command) (a : Arg) : Command := ⟨c.program, c.args ++ [a]⟩

/-- One externally visible effect of the library: spawning a child process and
waiting for it, or a `create_dir_all` call. -/
inductive Event where
  | spawned (c : Command)
  | createdDir (p : RPath)
deriving DecidableEq

/-- The trace of effects performed so far, newest last. -/
structure World where
  log : List Event
deriving DecidableEq

/-- File metadata, of which the code only inspects `is_file`. -/
structure Metadata where
  is_file : Bool
deriving DecidableEq

/-- One entry yielded by the `walkdir` iteration: its path and the result of
its (fallible) metadata query. -/
structure DirEntry where
  path : RPath
  metadata : Except IOErr Metadata
deriving DecidableEq

/-- The operating system as the library sees it.  Each oracle may consult the
effect trace so far, so outcomes can depend on what was already run; the
`walkdir` field gives the raw iterator items of `WalkDir::new` (errored items
included), and `out_dir` is the `OUT_DIR` environment variable. -/
structure Sys where
  spawnResult : List Event → Command → Except IOErr ExitStatus
  canonicalizeResult : List Event → RPath → Except IOErr RPath
  createDirAllResult : List Event → RPath → Except IOErr Unit
  walkdir : RPath → List (Except IOErr DirEntry)
  out_dir : Option String

/-- Runs a command to completion (`Command::status`), recording the spawn in
the trace and returning the oracle's outcome. -/
def spawn (sys : Sys) (w : World) (c : Command) : Except IOErr ExitStatus × World :=
  (sys.spawnResult w.log c, ⟨w.log ++ [.spawned c]⟩)

/-- Runs `std::fs::create_dir_all`, recording the attempt in the trace. -/
def createDirAll (sys : Sys) (w : World) (p : RPath) : Except IOErr Unit × World :=
  (sys.createDirAllResult w.log p, ⟨w.log ++ [.createdDir p]⟩)

/-- The error enumeration of the library (`enum Error` in src/lib.rs). -/
inductive Error where
  | MissingBlenderExecutable
  | InvalidInputFile (p : RPath)
  | Export (s : ExitStatus)
  | IOError (e : IOErr)
deriving DecidableEq

/-- The output format enumeration (`enum OutputFormat` in src/lib.rs). -/
inductive OutputFormat where
  | Glb
  | GltfEmbedded
  | GltfSeparate
deriving DecidableEq

/-- The `OutputFormat::export_script` method: the inline python directive
handed to blender, with the destination path and the format token both
debug-quoted exactly as Rust's `format!` with `{...:?}` renders them. -/
def OutputFormat.export_script (fmt : OutputFormat) (file_path : RPath) : String :=
  let format : String :=
    match fmt with
    | .Glb => "GLB"
    | .GltfEmbedded => "GLTF_EMBEDDED"
    | .GltfSeparate => "GLTF_SEPARATE"
  "import bpy; bpy.ops.export_scene.gltf(filepath=" ++ rustDebugStr file_path.display ++
    ", check_existing=False, export_format=" ++ rustDebugStr format ++ ")"

/-- The conversion options record (`struct ConversionOptions` in src/lib.rs). -/
structure ConversionOptions where
  output_format : OutputFormat
  blender_path : Option RPath
deriving DecidableEq

/-- The executable search strategy (`enum BlenderExecutable` in src/lib.rs). -/
inductive BlenderExecutable where
  | Normal
  | Flatpak
  | Path (p : RPath)
deriving DecidableEq

/-- The `BlenderExecutable::cmd` method: the base invocation of each strategy. -/
def BlenderExecutable.cmd : BlenderExecutable → Command
  | .Normal => ⟨.str "blender", []⟩
  | .Flatpak => ⟨.str "flatpak", [.str "run", .str "org.blender.Blender"]⟩
  | .Path p => ⟨.path p, []⟩

/-- The probe invocation `cmd().arg("-b").arg("-v")` built by
`BlenderExecutable::test`. -/
def probeCommand (e : BlenderExecutable) : Command :=
  (e.cmd.arg (.str "-b")).arg (.str "-v")

/-- The `BlenderExecutable::test` method: run the probe and report whether it
exited successfully; a launch failure is an `Err` at this level. -/
def BlenderExecutable.test (e : BlenderExecutable) (sys : Sys) (w : World) :
    Except IOErr Bool × World :=
  match spawn sys w (probeCommand e) with
  | (.ok st, w') => (.ok st.success, w')
  | (.error io, w') => (.error io, w')

/-- The `Iterator::find` loop inside `BlenderExecutable::find`: first candidate
whose probe matches `Ok(true)`; every non-match (clean failure or launch
error) moves on to the next candidate. -/
def findFirstWorking (sys : Sys) :
    List BlenderExecutable → World → Option BlenderExecutable × World
  | [], w => (none, w)
  | x :: xs, w =>
    match x.test sys w with
    | (.ok true, w') => (some x, w')
    | (.ok false, w') => findFirstWorking sys xs w'
    | (.error _, w') => findFirstWorking sys xs w'

/-- The `BlenderExecutable::find` method: try `Normal` then `Flatpak`, return
the first that probes successfully, else `MissingBlenderExecutable`. -/
def BlenderExecutable.find (sys : Sys) (w : World) :
    Except Error BlenderExecutable × World :=
  match findFirstWorking sys [.Normal, .Flatpak] w with
  | (some x, w') => (.ok x, w')
  | (none, w') => (.error .MissingBlenderExecutable, w')

/-- The `BlenderExecutable::find_using_path` method: probe exactly the given
path; on a matching probe return the `Path` locator, else
`MissingBlenderExecutable`. -/
def BlenderExecutable.find_using_path (sys : Sys) (path : RPath) (w : World) :
    Except Error BlenderExecutable × World :=
  let s := BlenderExecutable.Path path
  match s.test sys w with
  | (.ok true, w') => (.ok s, w')
  | (.ok false, w') => (.error .MissingBlenderExecutable, w')
  | (.error _, w') => (.error .MissingBlenderExecutable, w')

/-- The `BlenderExecutable::find_using_options` method: an override path wins,
otherwise the priority search. -/
def BlenderExecutable.find_using_options (sys : Sys) (options : ConversionOptions) (w : World) :
    Except Error BlenderExecutable × World :=
  match options.blender_path with
  | some path => BlenderExecutable.find_using_path sys path w
  | none => BlenderExecutable.find sys w

/-- The conversion invocation built in `ConversionOptions::convert_internal`:
`cmd().arg("-b").arg(canonical input).arg("--python-expr").arg(script)`. -/
def convertCommand (o : ConversionOptions) (exe : BlenderExecutable)
    (input_file_path output : RPath) : Command :=
  ((exe.cmd.arg (.str "-b")).arg (.path input_file_path)).arg
      (.str "--python-expr")
    |>.arg (.str (o.output_format.export_script output))

/-- The `ConversionOptions::convert_internal` method: canonicalize the input,
require the `blend` extension, run the conversion process, and map its exit
status to the result. -/
def ConversionOptions.convert_internal (o : ConversionOptions) (sys : Sys)
    (input output : RPath) (blender_exe : BlenderExecutable) (w : World) :
    Except Error Unit × World :=
  match sys.canonicalizeResult w.log input with
  | .error io => (.error (.IOError io), w)
  | .ok input_file_path =>
    match input_file_path.extension with
    | none => (.error (.InvalidInputFile input_file_path), w)
    | some ext =>
      if ext ≠ "blend" then (.error (.InvalidInputFile input_file_path), w)
      else
        match spawn sys w (convertCommand o blender_exe input_file_path output) with
        | (.error io, w') => (.error (.IOError io), w')
        | (.ok status, w') =>
          if status.success then (.ok (), w') else (.error (.Export status), w')

/-- The `ConversionOptions::convert` method: resolve a locator from the
options, then convert the single file with it. -/
def ConversionOptions.convert (o : ConversionOptions) (sys : Sys)
    (input output : RPath) (w : World) : Except Error Unit × World :=
  match BlenderExecutable.find_using_options sys o w with
  | (.ok blender_exe, w') => o.convert_internal sys input output blender_exe w'
  | (.error e, w') => (.error e, w')

/-- Outcome of processing one walk entry inside the `convert_dir` loop. -/
inductive StepResult where
  | next (w : World)
  | fail (e : Error) (w : World)
  | panicStep (m : String) (w : World)
deriving DecidableEq

/-- Outcome of a whole directory conversion: a returned `Result`, or a process
abort from an `expect`. -/
inductive DirResult where
  | finished (r : Except Error Unit) (w : World)
  | panicked (m : String) (w : World)
deriving DecidableEq

/-- Final effect trace of a directory conversion, whatever its outcome. -/
def DirResult.world : DirResult → World
  | .finished _ w => w
  | .panicked _ w => w

/-- Lines 112 to 121 of src/lib.rs: the output path computed for one walk
entry — the entry's parent (or `.` when it has none) joined under
`output_dir`, then the entry's file stem; a missing stem is an
`InvalidInputFile` error. -/
def entryOutputPath (output_dir : RPath) (input_path : RPath) : Except Error RPath :=
  let base : RPath :=
    match input_path.parent with
    | some entry_parent => entry_parent
    | none => ⟨false, ["."]⟩
  match input_path.fileStem with
  | none => .error (.InvalidInputFile input_path)
  | some stem => .ok ((output_dir.join base).join ⟨false, [stem]⟩)

/-- Body of the `convert_dir` loop for one raw iterator item: errored items
are dropped by the `filter_map`, entries with unreadable metadata or that are
not regular files are skipped, and for a file the output path is computed, its
parent directory created, and the file converted with the already resolved
executable. -/
def processEntry (sys : Sys) (o : ConversionOptions) (output_dir : RPath)
    (exe : BlenderExecutable) (ent : Except IOErr DirEntry) (w : World) : StepResult :=
  match ent with
  | .error _ => .next w
  | .ok entry =>
    match entry.metadata with
    | .error _ => .next w
    | .ok m =>
      if !m.is_file then .next w
      else
        match entryOutputPath output_dir entry.path with
        | .error e => .fail e w
        | .ok output_path =>
          match output_path.parent with
          | none => .panicStep "walkdir must have parent" w
          | some par =>
            match createDirAll sys w par with
            | (.error io, w') => .fail (.IOError io) w'
            | (.ok _, w') =>
              match o.convert_internal sys entry.path output_path exe w' with
              | (.ok _, w'') => .next w''
              | (.error e, w'') => .fail e w''

/-- The `for` loop of `ConversionOptions::convert_dir` over the raw walk
items: the first per-entry error ends the loop with that error. -/
def convertDirLoop (sys : Sys) (o : ConversionOptions) (output_dir : RPath)
    (exe : BlenderExecutable) : List (Except IOErr DirEntry) → World → DirResult
  | [], w => .finished (.ok ()) w
  | ent :: rest, w =>
    match processEntry sys o output_dir exe ent w with
    | .next w' => convertDirLoop sys o output_dir exe rest w'
    | .fail e w' => .finished (.error e) w'
    | .panicStep m w' => .panicked m w'

/-- The `ConversionOptions::convert_dir` method: resolve the locator once,
then run the loop over the walk of `input_dir`. -/
def ConversionOptions.convert_dir (o : ConversionOptions) (sys : Sys)
    (input_dir output_dir : RPath) (w : World) : DirResult :=
  match BlenderExecutable.find_using_options sys o w with
  | (.ok blender_exe, w') =>
    convertDirLoop sys o output_dir blender_exe (sys.walkdir input_dir) w'
  | (.error e, w') => .finished (.error e) w'

/-- The `ConversionOptions::convert_dir_build_script` method: read `OUT_DIR`
(aborting via `expect` when unset) and delegate to `convert_dir` with it as
the output root. -/
def ConversionOptions.convert_dir_build_script (o : ConversionOptions) (sys : Sys)
    (input_dir : RPath) (w : World) : DirResult :=
  match sys.out_dir with
  | none => .panicked "OUT_DIR is not set, this must be called from build.rs" w
  | some output_dir_env => o.convert_dir sys input_dir (pathOfString output_dir_env) w

/-- Whether a probe outcome is accepted by the discovery loop: the process
must have started and exited successfully; a launch error is a non-match. -/
def probeAccepted : Except IOErr ExitStatus → Bool
  | .ok st => st.success
  | .error _ => false

/-- Recognizes the probe invocations (and only them) among spawned commands. -/
def isProbeCmd (c : Command) : Bool :=
  decide (c = probeCommand .Normal) || decide (c = probeCommand .Flatpak) ||
    (match c.program with
     | .path p => decide (c = probeCommand (.Path p))
     | _ => false)

/-- Number of probe processes spawned in a trace. -/
def countProbes (l : List Event) : Nat :=
  l.countP (fun ev => match ev with | .spawned c => isProbeCmd c | .createdDir _ => false)

/-- Drops `base` from the front of `l`, when `base` is a prefix of `l`. -/
def dropBase : List String → List String → Option (List String)
  | [], rest => some rest
  | _ :: _, [] => none
  | b :: bs, c :: cs => if b = c then dropBase bs cs else none

/-- Follows the claim's words, for comparison with `entryOutputPath` (not
taken from the source): the output path of a walk entry is `output_dir`
joined with the entry's parent taken relative to `input_dir`, then the
entry's file stem. -/
def claimedOutputPath (input_dir output_dir entry_path : RPath) : Option RPath :=
  match entry_path.parent with
  | none => none
  | some par =>
    match dropBase input_dir.components par.components with
    | none => none
    | some rel =>
      entry_path.fileStem.map (fun stem => (output_dir.join ⟨false, rel⟩).join ⟨false, [stem]⟩)

/-- The spec's token map for `OutputFormat`, for comparison with the tokens
baked into `export_script`. -/
def formatToken : OutputFormat → String
  | .Glb => "GLB"
  | .GltfEmbedded => "GLTF_EMBEDDED"
  | .GltfSeparate => "GLTF_SEPARATE"

/-- A system whose every oracle succeeds: probes and conversions exit 0,
canonicalization is the identity, directory creation succeeds, the walk is
empty, and `OUT_DIR` is set. -/
def probeOkSys : Sys where
  spawnResult := fun _ _ => .ok ⟨0⟩
  canonicalizeResult := fun _ p => .ok p
  createDirAllResult := fun _ _ => .ok ()
  walkdir := fun _ => []
  out_dir := some "outdir"

/-- Helper: `parent` of a non-empty path drops the last component. -/
theorem RPath.parent_eq (a : Bool) (l : List String) (h : l ≠ []) :
    RPath.parent ⟨a, l⟩ = some ⟨a, l.dropLast⟩ := by
  cases l with
  | nil => exact absurd rfl h
  | cons x xs => rfl

/-- Helper: a system identical to `probeOkSys` except that the walk of any
directory yields the single regular file `blends/a/x.blend`. -/
def sysC1 : Sys :=
  { probeOkSys with walkdir := fun _ => [.ok ⟨⟨false, ["blends", "a", "x.blend"]⟩, .ok ⟨true⟩⟩] }

/-- C1 fails on the code: for the walk entry `blends/a/x.blend` under input
root `blends` with output root `out`, the code computes `out/blends/a/x`
(the entry's full parent, input root included, is joined under the output
root) while the claim predicts `out/a/x`; a real `convert_dir` run indeed
creates `out/blends/a` and converts to `out/blends/a/x`. -/
theorem convert_dir_output_not_relative_to_input_root :
    entryOutputPath ⟨false, ["out"]⟩ ⟨false, ["blends", "a", "x.blend"]⟩ =
        .ok ⟨false, ["out", "blends", "a", "x"]⟩ ∧
    claimedOutputPath ⟨false, ["blends"]⟩ ⟨false, ["out"]⟩ ⟨false, ["blends", "a", "x.blend"]⟩ =
        some ⟨false, ["out", "a", "x"]⟩ ∧
    RPath.mk false ["out", "blends", "a", "x"] ≠ RPath.mk false ["out", "a", "x"] ∧
    (ConversionOptions.convert_dir ⟨.Glb, none⟩ sysC1
          ⟨false, ["blends"]⟩ ⟨false, ["out"]⟩ ⟨[]⟩).world.log =
      [.spawned (probeCommand .Normal),
       .createdDir ⟨false, ["out", "blends", "a"]⟩,
       .spawned (convertCommand ⟨.Glb, none⟩ .Normal ⟨false, ["blends", "a", "x.blend"]⟩
          ⟨false, ["out", "blends", "a", "x"]⟩)] := by
  refine ⟨by decide, by decide, by decide, by decide⟩

/-- C1 amended: the output path computed by `convert_dir` for a relative walk
entry is `output_dir` joined with the entry's full parent path — which starts
with the input root itself, here `pre` — followed by the entry's file stem;
the input root is not stripped. -/
theorem entry_output_path_mirrors_full_parent (output_dir : RPath)
    (pre rel : List String) (name : String) :
    entryOutputPath output_dir ⟨false, pre ++ rel ++ [name]⟩ =
      .ok ⟨output_dir.absolute,
        output_dir.components ++ pre ++ rel ++ [(fileStemExt name).1]⟩ := by
  have hne : pre ++ rel ++ [name] ≠ [] := by simp
  have hdl : (pre ++ rel ++ [name]).dropLast = pre ++ rel := List.dropLast_concat
  have hlast : (pre ++ rel ++ [name]).getLast? = some name := List.getLast?_concat _
  unfold entryOutputPath
  rw [RPath.parent_eq _ _ hne]
  simp only [RPath.fileStem, RPath.fileName, hlast, hdl, Option.map_some, RPath.join]
  simp [List.append_assoc]

/-- Helper characterization of `find`: the bare-name probe runs first, the
flatpak probe second, each at most once, and the first accepted probe wins. -/
theorem find_eq (sys : Sys) (w : World) :
    BlenderExecutable.find sys w =
      if probeAccepted (sys.spawnResult w.log (probeCommand .Normal)) then
        (.ok .Normal, ⟨w.log ++ [.spawned (probeCommand .Normal)]⟩)
      else if probeAccepted (sys.spawnResult (w.log ++ [.spawned (probeCommand .Normal)])
          (probeCommand .Flatpak)) then
        (.ok .Flatpak,
          ⟨w.log ++ [.spawned (probeCommand .Normal), .spawned (probeCommand .Flatpak)]⟩)
      else
        (.error .MissingBlenderExecutable,
          ⟨w.log ++ [.spawned (probeCommand .Normal), .spawned (probeCommand .Flatpak)]⟩) := by
  cases h1 : sys.spawnResult w.log (probeCommand .Normal) with
  | ok st1 =>
    cases h1s : st1.success with
    | true =>
      simp [BlenderExecutable.find, findFirstWorking, BlenderExecutable.test, spawn,
        probeAccepted, h1, h1s]
    | false =>
      cases h2 : sys.spawnResult (w.log ++ [.spawned (probeCommand .Normal)])
          (probeCommand .Flatpak) with
      | ok st2 =>
        cases h2s : st2.success with
        | true =>
          simp [BlenderExecutable.find, findFirstWorking, BlenderExecutable.test, spawn,
            probeAccepted, h1, h1s, h2, h2s]
        | false =>
          simp [BlenderExecutable.find, findFirstWorking, BlenderExecutable.test, spawn,
            probeAccepted, h1, h1s, h2, h2s]
      | error io2 =>
        simp [BlenderExecutable.find, findFirstWorking, BlenderExecutable.test, spawn,
          probeAccepted, h1, h1s, h2]
  | error io1 =>
    cases h2 : sys.spawnResult (w.log ++ [.spawned (probeCommand .Normal)])
        (probeCommand .Flatpak) with
    | ok st2 =>
      cases h2s : st2.success with
      | true =>
        simp [BlenderExecutable.find, findFirstWorking, BlenderExecutable.test, spawn,
          probeAccepted, h1, h2, h2s]
      | false =>
        simp [BlenderExecutable.find, findFirstWorking, BlenderExecutable.test, spawn,
          probeAccepted, h1, h2, h2s]
    | error io2 =>
      simp [BlenderExecutable.find, findFirstWorking, BlenderExecutable.test, spawn,
        probeAccepted, h1, h2]

/-- Helper characterization of `find_using_path`: exactly one probe, of the
given path. -/
theorem find_using_path_eq (sys : Sys) (p : RPath) (w : World) :
    BlenderExecutable.find_using_path sys p w =
      if probeAccepted (sys.spawnResult w.log (probeCommand (.Path p))) then
        (.ok (.Path p), ⟨w.log ++ [.spawned (probeCommand (.Path p))]⟩)
      else
        (.error .MissingBlenderExecutable, ⟨w.log ++ [.spawned (probeCommand (.Path p))]⟩) := by
  cases h1 : sys.spawnResult w.log (probeCommand (.Path p)) with
  | ok st1 =>
    cases h1s : st1.success with
    | true =>
      simp [BlenderExecutable.find_using_path, BlenderExecutable.test, spawn,
        probeAccepted, h1, h1s]
    | false =>
      simp [BlenderExecutable.find_using_path, BlenderExecutable.test, spawn,
        probeAccepted, h1, h1s]
  | error io1 =>
    simp [BlenderExecutable.find_using_path, BlenderExecutable.test, spawn, probeAccepted, h1]

/-- C2: `find` probes the bare-name strategy first and the flatpak strategy
second, each exactly once; the first probe that starts and exits successfully
wins, a launch error counts exactly like a failing exit, and when neither
probe is accepted the result is `MissingBlenderExecutable`. -/
theorem find_probes_normal_then_flatpak_once_each (sys : Sys) (w : World) :
    BlenderExecutable.find sys w =
      if probeAccepted (sys.spawnResult w.log (probeCommand .Normal)) then
        (.ok .Normal, ⟨w.log ++ [.spawned (probeCommand .Normal)]⟩)
      else if probeAccepted (sys.spawnResult (w.log ++ [.spawned (probeCommand .Normal)])
          (probeCommand .Flatpak)) then
        (.ok .Flatpak,
          ⟨w.log ++ [.spawned (probeCommand .Normal), .spawned (probeCommand .Flatpak)]⟩)
      else
        (.error .MissingBlenderExecutable,
          ⟨w.log ++ [.spawned (probeCommand .Normal), .spawned (probeCommand .Flatpak)]⟩) :=
  find_eq sys w

/-- C3: `find_using_path` spawns exactly one probe, of the given path; an
accepted probe yields the `Path` locator and any other outcome (failing exit
or launch error) yields `MissingBlenderExecutable`, with no other strategy
ever probed. -/
theorem find_using_path_single_probe_no_fallback (sys : Sys) (p : RPath) (w : World) :
    BlenderExecutable.find_using_path sys p w =
      if probeAccepted (sys.spawnResult w.log (probeCommand (.Path p))) then
        (.ok (.Path p), ⟨w.log ++ [.spawned (probeCommand (.Path p))]⟩)
      else
        (.error .MissingBlenderExecutable, ⟨w.log ++ [.spawned (probeCommand (.Path p))]⟩) :=
  find_using_path_eq sys p w

/-- C4: with the locator already resolved, `convert` canonicalizes the input
first — a canonicalization failure is an `IOError` — and when the
canonicalized path's extension is absent or differs from `blend` it fails
with `InvalidInputFile`; in all three cases the returned world is the
post-discovery world unchanged, so no conversion process is ever spawned. -/
theorem convert_canonicalize_and_extension_guard (sys : Sys) (o : ConversionOptions)
    (input output : RPath) (exe : BlenderExecutable) (w w1 : World)
    (hf : BlenderExecutable.find_using_options sys o w = (.ok exe, w1)) :
    (∀ io, sys.canonicalizeResult w1.log input = .error io →
      o.convert sys input output w = (.error (.IOError io), w1)) ∧
    (∀ cp, sys.canonicalizeResult w1.log input = .ok cp → cp.extension = none →
      o.convert sys input output w = (.error (.InvalidInputFile cp), w1)) ∧
    (∀ cp e, sys.canonicalizeResult w1.log input = .ok cp → cp.extension = some e →
      e ≠ "blend" → o.convert sys input output w = (.error (.InvalidInputFile cp), w1)) := by
  refine ⟨?_, ?_, ?_⟩
  · intro io hio
    simp [ConversionOptions.convert, hf, ConversionOptions.convert_internal, hio]
  · intro cp hcp hext
    simp [ConversionOptions.convert, hf, ConversionOptions.convert_internal, hcp, hext]
  · intro cp e hcp hext hne
    simp [ConversionOptions.convert, hf, ConversionOptions.convert_internal, hcp, hext, hne]

/-- Witness for C4: with a working probe, converting `x.txt` (wrong
extension) fails with `InvalidInputFile` and spawns no conversion process. -/
theorem convert_canonicalize_and_extension_guard_witness :
    BlenderExecutable.find_using_options probeOkSys ⟨.Glb, none⟩ ⟨[]⟩ =
        (.ok .Normal, ⟨[.spawned (probeCommand .Normal)]⟩) ∧
    ConversionOptions.convert ⟨.Glb, none⟩ probeOkSys ⟨false, ["x.txt"]⟩ ⟨false, ["y"]⟩ ⟨[]⟩ =
        (.error (.InvalidInputFile ⟨false, ["x.txt"]⟩),
          ⟨[.spawned (probeCommand .Normal)]⟩) :=
  ⟨by decide,
    (convert_canonicalize_and_extension_guard probeOkSys ⟨.Glb, none⟩ ⟨false, ["x.txt"]⟩
        ⟨false, ["y"]⟩ .Normal ⟨[]⟩ ⟨[.spawned (probeCommand .Normal)]⟩ (by decide)).2.2
      ⟨false, ["x.txt"]⟩ "txt" (by decide) (by decide) (by decide)⟩

/-- C5: once the input has canonicalized to a `blend` file, `convert_internal`
spawns exactly the conversion command and maps its outcome exhaustively:
successful exit to `Ok`, a started process with failing exit to `Export`
carrying that very status, and a launch failure to `IOError`. -/
theorem convert_internal_exit_status_trichotomy (sys : Sys) (o : ConversionOptions)
    (input output cp : RPath) (exe : BlenderExecutable) (w : World)
    (hcanon : sys.canonicalizeResult w.log input = .ok cp)
    (hext : cp.extension = some "blend") :
    o.convert_internal sys input output exe w =
      match sys.spawnResult w.log (convertCommand o exe cp output) with
      | .ok st =>
        if st.success then
          (.ok (), ⟨w.log ++ [.spawned (convertCommand o exe cp output)]⟩)
        else
          (.error (.Export st), ⟨w.log ++ [.spawned (convertCommand o exe cp output)]⟩)
      | .error io =>
        (.error (.IOError io), ⟨w.log ++ [.spawned (convertCommand o exe cp output)]⟩) := by
  cases hs : sys.spawnResult w.log (convertCommand o exe cp output) with
  | ok st =>
    cases hst : st.success with
    | true => simp [ConversionOptions.convert_internal, hcanon, hext, spawn, hs, hst]
    | false => simp [ConversionOptions.convert_internal, hcanon, hext, spawn, hs, hst]
  | error io => simp [ConversionOptions.convert_internal, hcanon, hext, spawn, hs]

/-- Helper: a system whose processes all exit with status 1. -/
def sysExit1 : Sys := { probeOkSys with spawnResult := fun _ _ => .ok ⟨1⟩ }

/-- Witness for C5: a conversion process exiting with status 1 yields
`Export` carrying exit status 1. -/
theorem convert_internal_exit_status_trichotomy_witness :
    sysExit1.canonicalizeResult [] ⟨false, ["x.blend"]⟩ = .ok ⟨false, ["x.blend"]⟩ ∧
    (RPath.mk false ["x.blend"]).extension = some "blend" ∧
    ConversionOptions.convert_internal ⟨.Glb, none⟩ sysExit1 ⟨false, ["x.blend"]⟩
        ⟨false, ["out", "x"]⟩ .Normal ⟨[]⟩ =
      (.error (.Export ⟨1⟩),
        ⟨[.spawned (convertCommand ⟨.Glb, none⟩ .Normal ⟨false, ["x.blend"]⟩
            ⟨false, ["out", "x"]⟩)]⟩) :=
  ⟨by decide, by decide,
    convert_internal_exit_status_trichotomy sysExit1 ⟨.Glb, none⟩ ⟨false, ["x.blend"]⟩
      ⟨false, ["out", "x"]⟩ ⟨false, ["x.blend"]⟩ .Normal ⟨[]⟩ (by decide) (by decide)⟩

/-- Helper: a loop that ran to completion successfully can be extended. -/
theorem convertDirLoop_append (sys : Sys) (o : ConversionOptions) (od : RPath)
    (exe : BlenderExecutable) (l1 l2 : List (Except IOErr DirEntry)) (w w1 : World)
    (h : convertDirLoop sys o od exe l1 w = .finished (.ok ()) w1) :
    convertDirLoop sys o od exe (l1 ++ l2) w = convertDirLoop sys o od exe l2 w1 := by
  induction l1 generalizing w with
  | nil =>
    simp only [convertDirLoop] at h
    injection h with _ h2
    rw [List.nil_append, h2]
  | cons ent rest ih =>
    rw [List.cons_append]
    simp only [convertDirLoop] at h ⊢
    cases hp : processEntry sys o od exe ent w with
    | next w' =>
      simp only [hp] at h ⊢
      exact ih w' h
    | fail e w' => simp [hp] at h
    | panicStep m w' => simp [hp] at h

/-- C6: when discovery succeeds, a prefix of the walk is processed without
error, and the next entry fails, `convert_dir` returns exactly that entry's
error with exactly that entry's world — the remaining entries, whatever they
are, are never processed and leave no trace. -/
theorem convert_dir_fail_fast (sys : Sys) (o : ConversionOptions)
    (input_dir output_dir : RPath) (exe : BlenderExecutable)
    (l1 l2 : List (Except IOErr DirEntry)) (bad : Except IOErr DirEntry) (e : Error)
    (w w0 w1 w2 : World)
    (hf : BlenderExecutable.find_using_options sys o w = (.ok exe, w0))
    (hw : sys.walkdir input_dir = l1 ++ bad :: l2)
    (h1 : convertDirLoop sys o output_dir exe l1 w0 = .finished (.ok ()) w1)
    (h2 : processEntry sys o output_dir exe bad w1 = .fail e w2) :
    o.convert_dir sys input_dir output_dir w = .finished (.error e) w2 := by
  simp only [ConversionOptions.convert_dir, hf, hw]
  rw [convertDirLoop_append sys o output_dir exe l1 (bad :: l2) w0 w1 h1]
  simp [convertDirLoop, h2]

/-- Helper: a walk of three files whose second has the wrong extension. -/
def sysC6 : Sys :=
  { probeOkSys with walkdir := fun _ =>
      [.ok ⟨⟨false, ["d", "one.blend"]⟩, .ok ⟨true⟩⟩,
       .ok ⟨⟨false, ["d", "two.txt"]⟩, .ok ⟨true⟩⟩,
       .ok ⟨⟨false, ["d", "three.blend"]⟩, .ok ⟨true⟩⟩] }

/-- Witness for C6: of three files the second fails validation; the whole
call returns its `InvalidInputFile` error and the third file leaves no trace. -/
theorem convert_dir_fail_fast_witness :
    BlenderExecutable.find_using_options sysC6 ⟨.Glb, none⟩ ⟨[]⟩ =
        (.ok .Normal, ⟨[.spawned (probeCommand .Normal)]⟩) ∧
    ConversionOptions.convert_dir ⟨.Glb, none⟩ sysC6 ⟨false, ["d"]⟩ ⟨false, ["out"]⟩ ⟨[]⟩ =
      .finished (.error (.InvalidInputFile ⟨false, ["d", "two.txt"]⟩))
        ⟨[.spawned (probeCommand .Normal),
          .createdDir ⟨false, ["out", "d"]⟩,
          .spawned (convertCommand ⟨.Glb, none⟩ .Normal ⟨false, ["d", "one.blend"]⟩
            ⟨false, ["out", "d", "one"]⟩),
          .createdDir ⟨false, ["out", "d"]⟩]⟩ :=
  ⟨by decide,
    convert_dir_fail_fast sysC6 ⟨.Glb, none⟩ ⟨false, ["d"]⟩ ⟨false, ["out"]⟩ .Normal
      [.ok ⟨⟨false, ["d", "one.blend"]⟩, .ok ⟨true⟩⟩]
      [.ok ⟨⟨false, ["d", "three.blend"]⟩, .ok ⟨true⟩⟩]
      (.ok ⟨⟨false, ["d", "two.txt"]⟩, .ok ⟨true⟩⟩)
      (.InvalidInputFile ⟨false, ["d", "two.txt"]⟩)
      ⟨[]⟩ ⟨[.spawned (probeCommand .Normal)]⟩
      ⟨[.spawned (probeCommand .Normal),
        .createdDir ⟨false, ["out", "d"]⟩,
        .spawned (convertCommand ⟨.Glb, none⟩ .Normal ⟨false, ["d", "one.blend"]⟩
          ⟨false, ["out", "d", "one"]⟩)]⟩
      ⟨[.spawned (probeCommand .Normal),
        .createdDir ⟨false, ["out", "d"]⟩,
        .spawned (convertCommand ⟨.Glb, none⟩ .Normal ⟨false, ["d", "one.blend"]⟩
          ⟨false, ["out", "d", "one"]⟩),
        .createdDir ⟨false, ["out", "d"]⟩]⟩
      (by decide) (by decide) (by decide) (by decide)⟩

/-- C10: when discovery succeeds and every raw walk item is an error — as for
a missing or unreadable input directory, where the walk yields a single
errored item for the root — `convert_dir` returns `Ok` with the
post-discovery world unchanged: all walk errors are silently discarded and
nothing is converted. -/
theorem convert_dir_swallows_walk_errors (sys : Sys) (o : ConversionOptions)
    (input_dir output_dir : RPath) (exe : BlenderExecutable) (w w1 : World)
    (hf : BlenderExecutable.find_using_options sys o w = (.ok exe, w1))
    (hwalk : ∀ ent ∈ sys.walkdir input_dir, ∃ io, ent = Except.error io) :
    o.convert_dir sys input_dir output_dir w = .finished (.ok ()) w1 := by
  have hloop : ∀ l : List (Except IOErr DirEntry),
      (∀ ent ∈ l, ∃ io, ent = Except.error io) →
      ∀ wx, convertDirLoop sys o output_dir exe l wx = .finished (.ok ()) wx := by
    intro l
    induction l with
    | nil => intro _ wx; rfl
    | cons ent rest ih =>
      intro h wx
      obtain ⟨io, hio⟩ := h ent (by simp)
      subst hio
      simp only [convertDirLoop, processEntry]
      exact ih (fun x hx => h x (by simp [hx])) wx
  simp only [ConversionOptions.convert_dir, hf]
  exact hloop _ hwalk _

/-- Helper: a system on which walking any directory yields one errored item,
as for a nonexistent input root. -/
def sysC10 : Sys := { probeOkSys with walkdir := fun _ => [.error 7] }

/-- Witness for C10: with a working probe but an unreadable input root (the
walk yields only an errored item), `convert_dir` still returns `Ok` and
converts nothing. -/
theorem convert_dir_swallows_walk_errors_witness :
    BlenderExecutable.find_using_options sysC10 ⟨.Glb, none⟩ ⟨[]⟩ =
        (.ok .Normal, ⟨[.spawned (probeCommand .Normal)]⟩) ∧
    ConversionOptions.convert_dir ⟨.Glb, none⟩ sysC10 ⟨false, ["missing"]⟩
        ⟨false, ["out"]⟩ ⟨[]⟩ =
      .finished (.ok ()) ⟨[.spawned (probeCommand .Normal)]⟩ :=
  ⟨by decide,
    convert_dir_swallows_walk_errors sysC10 ⟨.Glb, none⟩ ⟨false, ["missing"]⟩
      ⟨false, ["out"]⟩ .Normal ⟨[]⟩ ⟨[.spawned (probeCommand .Normal)]⟩ (by decide)
      (by intro ent h; simp only [sysC10] at h; simp at h; exact ⟨7, h⟩)⟩

/-- Helper: joining a single relative component always leaves a parent. -/
theorem join_single_parent (q : RPath) (s : String) :
    (q.join ⟨false, [s]⟩).parent = some ⟨q.absolute, q.components⟩ := by
  have h : q.join ⟨false, [s]⟩ = ⟨q.absolute, q.components ++ [s]⟩ := by
    simp [RPath.join]
  rw [h, RPath.parent_eq _ _ (by simp), List.dropLast_concat]

/-- Helper: a successfully computed entry output path has a parent. -/
theorem entryOutputPath_parent_some (od p op : RPath) (h : entryOutputPath od p = .ok op) :
    ∃ par, op.parent = some par := by
  simp only [entryOutputPath] at h
  cases hstem : p.fileStem with
  | none => rw [hstem] at h; simp at h
  | some stem =>
    rw [hstem] at h
    simp only [Except.ok.injEq] at h
    subst h
    exact ⟨_, join_single_parent _ _⟩

/-- Helper: processing one walk entry never reaches the `expect` abort,
because the computed output path always has a parent. -/
theorem processEntry_no_panic (sys : Sys) (o : ConversionOptions) (od : RPath)
    (exe : BlenderExecutable) (ent : Except IOErr DirEntry) (w : World)
    (m : String) (w' : World) :
    processEntry sys o od exe ent w ≠ .panicStep m w' := by
  unfold processEntry
  cases ent with
  | error io => simp
  | ok entry =>
    cases hmd : entry.metadata with
    | error io => simp [hmd]
    | ok md =>
      cases hm : md.is_file with
      | false => simp [hmd, hm]
      | true =>
        cases hout : entryOutputPath od entry.path with
        | error e => simp [hmd, hm, hout]
        | ok op =>
          obtain ⟨par, hpar⟩ := entryOutputPath_parent_some od entry.path op hout
          cases hc : sys.createDirAllResult w.log par with
          | error io => simp [hmd, hm, hout, hpar, createDirAll, hc]
          | ok u =>
            rcases hci : o.convert_internal sys entry.path op exe ⟨w.log ++ [.createdDir par]⟩
              with ⟨r, w2⟩
            rcases r with e | u2
            · simp [hmd, hm, hout, hpar, createDirAll, hc, hci]
            · simp [hmd, hm, hout, hpar, createDirAll, hc, hci]

/-- Helper: the `convert_dir` loop never aborts. -/
theorem convertDirLoop_no_panic (sys : Sys) (o : ConversionOptions) (od : RPath)
    (exe : BlenderExecutable) (l : List (Except IOErr DirEntry)) (w : World)
    (m : String) (w' : World) :
    convertDirLoop sys o od exe l w ≠ .panicked m w' := by
  induction l generalizing w with
  | nil => simp [convertDirLoop]
  | cons ent rest ih =>
    simp only [convertDirLoop]
    cases hp : processEntry sys o od exe ent w with
    | next wx => exact ih wx
    | fail e wx => simp
    | panicStep mx wx => exact absurd hp (processEntry_no_panic sys o od exe ent w mx wx)

/-- Helper: `convert_dir` itself never aborts. -/
theorem convert_dir_no_panic (sys : Sys) (o : ConversionOptions)
    (input_dir output_dir : RPath) (w : World) (m : String) (w' : World) :
    o.convert_dir sys input_dir output_dir w ≠ .panicked m w' := by
  rcases hf : BlenderExecutable.find_using_options sys o w with ⟨r, wf⟩
  rcases r with e | exe
  · simp [ConversionOptions.convert_dir, hf]
  · simp only [ConversionOptions.convert_dir, hf]
    exact convertDirLoop_no_panic sys o output_dir exe (sys.walkdir input_dir) wf m w'

/-- C9: `convert_dir_build_script` aborts (rather than returning any error)
exactly when `OUT_DIR` is unset, and when `OUT_DIR` holds `s` it returns
exactly the result of `convert_dir` with `s` parsed as the output root. -/
theorem convert_dir_build_script_env_contract (sys : Sys) (o : ConversionOptions)
    (input_dir : RPath) (w : World) :
    ((∃ m w', o.convert_dir_build_script sys input_dir w = .panicked m w') ↔
      sys.out_dir = none) ∧
    (∀ s, sys.out_dir = some s →
      o.convert_dir_build_script sys input_dir w =
        o.convert_dir sys input_dir (pathOfString s) w) := by
  constructor
  · constructor
    · rintro ⟨m, w', hp⟩
      cases hs : sys.out_dir with
      | none => rfl
      | some s =>
        simp only [ConversionOptions.convert_dir_build_script, hs] at hp
        exact absurd hp (convert_dir_no_panic sys o input_dir (pathOfString s) w m w')
    · intro hs
      exact ⟨"OUT_DIR is not set, this must be called from build.rs", w,
        by simp only [ConversionOptions.convert_dir_build_script, hs]⟩
  · intro s hs
    simp only [ConversionOptions.convert_dir_build_script, hs]

/-- Witness for C9: with `OUT_DIR` set to `outdir`, the build-script entry
point returns exactly the `convert_dir` result with output root `outdir`. -/
theorem convert_dir_build_script_env_contract_witness :
    probeOkSys.out_dir = some "outdir" ∧
    ConversionOptions.convert_dir_build_script ⟨.Glb, none⟩ probeOkSys ⟨false, ["blends"]⟩ ⟨[]⟩ =
      ConversionOptions.convert_dir ⟨.Glb, none⟩ probeOkSys ⟨false, ["blends"]⟩
        (pathOfString "outdir") ⟨[]⟩ :=
  ⟨rfl,
    (convert_dir_build_script_env_contract probeOkSys ⟨.Glb, none⟩
      ⟨false, ["blends"]⟩ ⟨[]⟩).2 "outdir" rfl⟩

/-- Final world of one loop step, whatever its outcome. -/
def StepResult.world : StepResult → World
  | .next w => w
  | .fail _ w => w
  | .panicStep _ w => w

/-- Helper: a trace holds no more probes than events. -/
theorem countProbes_le_length (l : List Event) : countProbes l ≤ l.length :=
  List.countP_le_length _

/-- Helper: a conversion invocation is never recognized as a probe. -/
theorem isProbeCmd_convertCommand (o : ConversionOptions) (exe : BlenderExecutable)
    (cp output : RPath) : isProbeCmd (convertCommand o exe cp output) = false := by
  cases exe <;>
    simp [isProbeCmd, convertCommand, probeCommand, BlenderExecutable.cmd, Command.arg]

/-- Helper: a single-file conversion extends the trace without any probe. -/
theorem convert_internal_log (sys : Sys) (o : ConversionOptions) (input output : RPath)
    (exe : BlenderExecutable) (w : World) :
    ∃ d, (o.convert_internal sys input output exe w).2.log = w.log ++ d ∧
      countProbes d = 0 := by
  cases hc : sys.canonicalizeResult w.log input with
  | error io => exact ⟨[], by simp [ConversionOptions.convert_internal, hc], rfl⟩
  | ok cp =>
    cases hext : cp.extension with
    | none => exact ⟨[], by simp [ConversionOptions.convert_internal, hc, hext], rfl⟩
    | some e =>
      by_cases hb : e = "blend"
      · subst hb
        refine ⟨[.spawned (convertCommand o exe cp output)], ?_, ?_⟩
        · cases hs : sys.spawnResult w.log (convertCommand o exe cp output) with
          | ok st =>
            cases hst : st.success with
            | true => simp [ConversionOptions.convert_internal, hc, hext, spawn, hs, hst]
            | false => simp [ConversionOptions.convert_internal, hc, hext, spawn, hs, hst]
          | error io => simp [ConversionOptions.convert_internal, hc, hext, spawn, hs]
        · simp [countProbes, isProbeCmd_convertCommand]
      · exact ⟨[], by simp [ConversionOptions.convert_internal, hc, hext, hb], rfl⟩

/-- Helper: one loop step extends the trace without any probe. -/
theorem processEntry_log (sys : Sys) (o : ConversionOptions) (od : RPath)
    (exe : BlenderExecutable) (ent : Except IOErr DirEntry) (w : World) :
    ∃ d, (processEntry sys o od exe ent w).world.log = w.log ++ d ∧ countProbes d = 0 := by
  cases ent with
  | error io => exact ⟨[], by simp [processEntry, StepResult.world], rfl⟩
  | ok entry =>
    cases hmd : entry.metadata with
    | error io => exact ⟨[], by simp [processEntry, hmd, StepResult.world], rfl⟩
    | ok md =>
      cases hm : md.is_file with
      | false => exact ⟨[], by simp [processEntry, hmd, hm, StepResult.world], rfl⟩
      | true =>
        cases hout : entryOutputPath od entry.path with
        | error e =>
          exact ⟨[], by simp [processEntry, hmd, hm, hout, StepResult.world], rfl⟩
        | ok op =>
          obtain ⟨par, hpar⟩ := entryOutputPath_parent_some od entry.path op hout
          cases hc : sys.createDirAllResult w.log par with
          | error io =>
            exact ⟨[.createdDir par],
              by simp [processEntry, hmd, hm, hout, hpar, createDirAll, hc, StepResult.world],
              rfl⟩
          | ok u =>
            rcases convert_internal_log sys o entry.path op exe ⟨w.log ++ [.createdDir par]⟩
              with ⟨d', hd', hc'⟩
            rcases hci : o.convert_internal sys entry.path op exe ⟨w.log ++ [.createdDir par]⟩
              with ⟨r, w2⟩
            rw [hci] at hd'
            refine ⟨.createdDir par :: d', ?_, ?_⟩
            · rcases r with e | u2 <;>
                · simp [processEntry, hmd, hm, hout, hpar, createDirAll, hc, hci,
                    StepResult.world]
                  simp only [] at hd'
                  simp [hd', List.append_assoc]
            · simpa [countProbes, List.countP_cons] using hc'

/-- Helper: the whole loop extends the trace without any probe. -/
theorem convertDirLoop_log (sys : Sys) (o : ConversionOptions) (od : RPath)
    (exe : BlenderExecutable) (l : List (Except IOErr DirEntry)) :
    ∀ w, ∃ d, (convertDirLoop sys o od exe l w).world.log = w.log ++ d ∧
      countProbes d = 0 := by
  induction l with
  | nil => intro w; exact ⟨[], by simp [convertDirLoop, DirResult.world], rfl⟩
  | cons ent rest ih =>
    intro w
    rcases processEntry_log sys o od exe ent w with ⟨d1, hd1, hc1⟩
    cases hp : processEntry sys o od exe ent w with
    | next w' =>
      rw [hp] at hd1
      simp only [StepResult.world] at hd1
      rcases ih w' with ⟨d2, hd2, hc2⟩
      refine ⟨d1 ++ d2, ?_, ?_⟩
      · simp only [convertDirLoop, hp]
        rw [hd2, hd1, List.append_assoc]
      · simp only [countProbes, List.countP_append] at hc1 hc2 ⊢
        omega
    | fail e w' =>
      rw [hp] at hd1
      simp only [StepResult.world] at hd1
      refine ⟨d1, ?_, hc1⟩
      simp only [convertDirLoop, hp, DirResult.world]
      exact hd1
    | panicStep mx wx =>
      exact absurd hp (processEntry_no_panic sys o od exe ent w mx wx)

/-- Helper: `find` extends the trace by at most two probes. -/
theorem find_log (sys : Sys) (w : World) :
    ∃ d, (BlenderExecutable.find sys w).2.log = w.log ++ d ∧ countProbes d ≤ 2 := by
  rw [find_eq]
  cases hb1 : probeAccepted (sys.spawnResult w.log (probeCommand .Normal)) with
  | true =>
    exact ⟨[.spawned (probeCommand .Normal)], by simp [hb1],
      le_trans (countProbes_le_length _) (by simp)⟩
  | false =>
    cases hb2 : probeAccepted (sys.spawnResult (w.log ++ [.spawned (probeCommand .Normal)])
        (probeCommand .Flatpak)) with
    | true =>
      exact ⟨[.spawned (probeCommand .Normal), .spawned (probeCommand .Flatpak)],
        by simp [hb1, hb2], le_trans (countProbes_le_length _) (by simp)⟩
    | false =>
      exact ⟨[.spawned (probeCommand .Normal), .spawned (probeCommand .Flatpak)],
        by simp [hb1, hb2], le_trans (countProbes_le_length _) (by simp)⟩

/-- Helper: `find_using_path` extends the trace by exactly one probe. -/
theorem find_using_path_log (sys : Sys) (p : RPath) (w : World) :
    ∃ d, (BlenderExecutable.find_using_path sys p w).2.log = w.log ++ d ∧
      countProbes d ≤ 2 := by
  rw [find_using_path_eq]
  cases hb : probeAccepted (sys.spawnResult w.log (probeCommand (.Path p))) with
  | true =>
    exact ⟨[.spawned (probeCommand (.Path p))], by simp [hb],
      le_trans (countProbes_le_length _) (by simp)⟩
  | false =>
    exact ⟨[.spawned (probeCommand (.Path p))], by simp [hb],
      le_trans (countProbes_le_length _) (by simp)⟩

/-- Helper: locator resolution extends the trace by at most two probes. -/
theorem find_using_options_log (sys : Sys) (o : ConversionOptions) (w : World) :
    ∃ d, (BlenderExecutable.find_using_options sys o w).2.log = w.log ++ d ∧
      countProbes d ≤ 2 := by
  cases ho : o.blender_path with
  | none => simpa [BlenderExecutable.find_using_options, ho] using find_log sys w
  | some p =>
    simpa [BlenderExecutable.find_using_options, ho] using find_using_path_log sys p w

/-- C8: during one `convert_dir` call, discovery contributes a trace segment
`d1` of at most two probes placed before the walk, and the whole walk
contributes a segment `d2` containing no probe at all — so the executable is
resolved exactly once, per-file conversions never re-probe, and at most two
probe processes are spawned regardless of how many files are converted. -/
theorem convert_dir_single_discovery_probe_bound (sys : Sys) (o : ConversionOptions)
    (input_dir output_dir : RPath) (w : World) :
    ∃ d1 d2 : List Event,
      (BlenderExecutable.find_using_options sys o w).2.log = w.log ++ d1 ∧
      (o.convert_dir sys input_dir output_dir w).world.log = w.log ++ d1 ++ d2 ∧
      countProbes d1 ≤ 2 ∧ countProbes d2 = 0 := by
  rcases find_using_options_log sys o w with ⟨d1, hd1, hc1⟩
  rcases hf : BlenderExecutable.find_using_options sys o w with ⟨r, wf⟩
  rw [hf] at hd1
  simp only [] at hd1
  rcases r with e | exe
  · refine ⟨d1, [], hd1, ?_, hc1, rfl⟩
    simp only [ConversionOptions.convert_dir, hf, DirResult.world]
    simp [hd1]
  · rcases convertDirLoop_log sys o output_dir exe (sys.walkdir input_dir) wf
      with ⟨d2, hd2, hc2⟩
    refine ⟨d1, d2, hd1, ?_, hc1, hc2⟩
    simp only [ConversionOptions.convert_dir, hf]
    rw [hd2, hd1]

/-- Helper: `String` append acts as list append on the character data. -/
theorem strDataApp (a b : String) : (a ++ b).data = a.data ++ b.data := rfl

/-- Helper: debug-escaping is the identity on character lists without quotes
and backslashes. -/
theorem escDebugChars_eq_self : ∀ l : List Char, chMem '"' l = false →
    chMem '\\' l = false → (l.map escDebugChar).flatten = l := by
  intro l
  induction l with
  | nil => intro _ _; rfl
  | cons c t ih =>
    intro hq hb
    simp only [chMem, Bool.or_eq_false_iff] at hq hb
    simp [escDebugChar, hq.1, hb.1, ih hq.2 hb.2]

/-- Helper: debug-escaping is the identity on strings without quotes and
backslashes. -/
theorem escDebug_eq_self (s : String) (hq : chMem '"' s.data = false)
    (hb : chMem '\\' s.data = false) : escDebug s = s := by
  cases s with
  | mk l =>
    simp only [escDebug]
    exact congrArg String.mk (escDebugChars_eq_self l hq hb)

/-- Helper: a prefix test cannot reach past a character the pattern lacks. -/
theorem pfxB_append_stop : ∀ (pat : List Char) (q : Char), chMem q pat = false →
    ∀ (b s : List Char), pfxB pat (b ++ q :: s) = pfxB pat b := by
  intro pat
  induction pat with
  | nil => intro q _ b s; rfl
  | cons p ps ih =>
    intro q hq b s
    simp only [chMem, Bool.or_eq_false_iff] at hq
    cases b with
    | nil =>
      simp only [List.nil_append, pfxB]
      simp [hq.1]
    | cons c bs =>
      simp only [List.cons_append, pfxB, List.append_eq]
      rw [ih q hq.2 bs s]

/-- Helper: an occurrence of a pattern lacking `q` lies entirely on one side
of an occurrence of `q`. -/
theorem hasSub_split : ∀ (pat : List Char) (q : Char), chMem q pat = false →
    ∀ (b s : List Char), hasSub pat (b ++ q :: s) = (hasSub pat b || hasSub pat s) := by
  intro pat q hq b
  induction b with
  | nil =>
    intro s
    cases pat with
    | nil => simp [hasSub, pfxB]
    | cons p ps =>
      simp only [chMem, Bool.or_eq_false_iff] at hq
      simp only [List.nil_append, hasSub, pfxB, List.isEmpty]
      simp [hq.1]
  | cons c bs ih =>
    intro s
    simp only [List.cons_append, hasSub, List.append_eq]
    rw [show c :: (bs ++ q :: s) = (c :: bs) ++ q :: s from rfl,
      pfxB_append_stop pat q hq (c :: bs) s, ih s]
    simp [hasSub, Bool.or_assoc]

/-- Helper: a pattern occurs in any list it starts. -/
theorem pfxB_self_append : ∀ (t r : List Char), pfxB t (t ++ r) = true := by
  intro t
  induction t with
  | nil => intro r; rfl
  | cons c t' ih => intro r; simp [pfxB, ih]

/-- Helper: a pattern occurs in itself followed by anything. -/
theorem hasSub_self_append (pat r : List Char) : hasSub pat (pat ++ r) = true := by
  cases pat with
  | nil =>
    cases r with
    | nil => rfl
    | cons c t => simp [hasSub, pfxB]
  | cons p ps =>
    have h := pfxB_self_append (p :: ps) r
    simp only [List.cons_append] at h ⊢
    simp [hasSub, h]

/-- Helper: occurrence is preserved by extending on the left. -/
theorem hasSub_append_left : ∀ (l pat s : List Char),
    hasSub pat s = true → hasSub pat (l ++ s) = true := by
  intro l pat s h
  induction l with
  | nil => simpa using h
  | cons c t ih => simp [hasSub, ih]

/-- Helper: occurrence is preserved under one more leading character. -/
theorem hasSub_cons (c : Char) (pat s : List Char) (h : hasSub pat s = true) :
    hasSub pat (c :: s) = true := by
  simp [hasSub, h]

/-- Helper split instances for the three format tokens (none contains a
quote). -/
theorem hasSub_split_glb (b s : List Char) :
    hasSub "GLB".data (b ++ '"' :: s) = (hasSub "GLB".data b || hasSub "GLB".data s) :=
  hasSub_split _ '"' (by decide) b s

/-- Helper split instance for the embedded-format token. -/
theorem hasSub_split_emb (b s : List Char) :
    hasSub "GLTF_EMBEDDED".data (b ++ '"' :: s) =
      (hasSub "GLTF_EMBEDDED".data b || hasSub "GLTF_EMBEDDED".data s) :=
  hasSub_split _ '"' (by decide) b s

/-- Helper split instance for the separate-format token. -/
theorem hasSub_split_sep (b s : List Char) :
    hasSub "GLTF_SEPARATE".data (b ++ '"' :: s) =
      (hasSub "GLTF_SEPARATE".data b || hasSub "GLTF_SEPARATE".data s) :=
  hasSub_split _ '"' (by decide) b s

/-- Helper: the character data of a generated export script, split at its
four quotes. -/
theorem export_script_data (fmt : OutputFormat) (p : RPath)
    (hq : chMem '"' p.display.data = false) (hb : chMem '\\' p.display.data = false) :
    (fmt.export_script p).data =
      "import bpy; bpy.ops.export_scene.gltf(filepath=".data ++
        '"' :: (p.display.data ++
          '"' :: (", check_existing=False, export_format=".data ++
            '"' :: ((formatToken fmt).data ++ '"' :: [')']))) := by
  have he : escDebug p.display = p.display := escDebug_eq_self p.display hq hb
  cases fmt <;>
    simp [OutputFormat.export_script, rustDebugStr, formatToken, he, strDataApp,
      show escDebug "GLB" = "GLB" from rfl,
      show escDebug "GLTF_EMBEDDED" = "GLTF_EMBEDDED" from rfl,
      show escDebug "GLTF_SEPARATE" = "GLTF_SEPARATE" from rfl,
      show ("\"" : String).data = ['"'] from rfl,
      show (")" : String).data = [')'] from rfl,
      List.append_assoc]

/-- C7: for any destination path whose rendered text holds no quote,
backslash or format token, `export_script` is exactly the operator invocation
with the debug-quoted destination, `check_existing=False` and the token of
its own variant — `GLB`, `GLTF_EMBEDDED` or `GLTF_SEPARATE` — and the
directive contains its variant's token and no other variant's token. -/
theorem export_script_exact_token (fmt : OutputFormat) (p : RPath)
    (hq : chMem '"' p.display.data = false)
    (hb : chMem '\\' p.display.data = false)
    (h1 : strSub "GLB" p.display = false)
    (h2 : strSub "GLTF_EMBEDDED" p.display = false)
    (h3 : strSub "GLTF_SEPARATE" p.display = false) :
    fmt.export_script p =
      "import bpy; bpy.ops.export_scene.gltf(filepath=" ++ rustDebugStr p.display ++
        ", check_existing=False, export_format=" ++ rustDebugStr (formatToken fmt) ++ ")" ∧
    strSub (formatToken fmt) (fmt.export_script p) = true ∧
    ∀ g : OutputFormat, formatToken g ≠ formatToken fmt →
      strSub (formatToken g) (fmt.export_script p) = false := by
  simp only [strSub] at h1 h2 h3
  refine ⟨?_, ?_, ?_⟩
  · cases fmt <;> rfl
  · simp only [strSub]
    rw [export_script_data fmt p hq hb]
    apply hasSub_append_left
    apply hasSub_cons
    apply hasSub_append_left
    apply hasSub_cons
    apply hasSub_append_left
    apply hasSub_cons
    exact hasSub_self_append _ _
  · intro g hg
    simp only [strSub]
    rw [export_script_data fmt p hq hb]
    cases fmt with
    | Glb =>
      cases g with
      | Glb => exact absurd rfl hg
      | GltfEmbedded =>
        simp only [formatToken]
        rw [hasSub_split_emb, hasSub_split_emb, hasSub_split_emb, hasSub_split_emb, h2]
        decide
      | GltfSeparate =>
        simp only [formatToken]
        rw [hasSub_split_sep, hasSub_split_sep, hasSub_split_sep, hasSub_split_sep, h3]
        decide
    | GltfEmbedded =>
      cases g with
      | Glb =>
        simp only [formatToken]
        rw [hasSub_split_glb, hasSub_split_glb, hasSub_split_glb, hasSub_split_glb, h1]
        decide
      | GltfEmbedded => exact absurd rfl hg
      | GltfSeparate =>
        simp only [formatToken]
        rw [hasSub_split_sep, hasSub_split_sep, hasSub_split_sep, hasSub_split_sep, h3]
        decide
    | GltfSeparate =>
      cases g with
      | Glb =>
        simp only [formatToken]
        rw [hasSub_split_glb, hasSub_split_glb, hasSub_split_glb, hasSub_split_glb, h1]
        decide
      | GltfEmbedded =>
        simp only [formatToken]
        rw [hasSub_split_emb, hasSub_split_emb, hasSub_split_emb, hasSub_split_emb, h2]
        decide
      | GltfSeparate => exact absurd rfl hg

/-- Witness for C7: at destination `out/a/x` with the embedded variant, the
hypotheses hold, and the directive does not contain the `GLB` token. -/
theorem export_script_exact_token_witness :
    chMem '"' (RPath.display ⟨false, ["out", "a", "x"]⟩).data = false ∧
    strSub "GLB" (RPath.display ⟨false, ["out", "a", "x"]⟩) = false ∧
    strSub "GLB" (OutputFormat.export_script .GltfEmbedded ⟨false, ["out", "a", "x"]⟩) = false :=
  ⟨by decide, by decide,
    (export_script_exact_token .GltfEmbedded ⟨false, ["out", "a", "x"]⟩ (by decide) (by decide)
        (by decide) (by decide) (by decide)).2.2 .Glb (by decide)⟩
